import Mathlib

/-!
Verification of seqview.py.

Shallow embedding of the module: the free index functions (succ, pred),
the capability dispatch of smap and sfilter, the composite index and map
view, and the skip index and filter view, all over list-backed
(random-access) sources.

Conventions of the embedding:

* Python exceptions are modelled by Option, with none at the operation
  where the source lets the exception escape (IndexError from a
  subscript, ValueError from pred, TypeError from min over a
  non-iterable object).
* In BidirectionalSequence.__iter__, an IndexError raised while
  dereferencing or stepping is converted to StopIteration, which ends
  the generator under the generator semantics the module was written
  for: iteration terminates normally with the elements yielded so far.
* Each view construction executes a nested class Index statement, so
  every view instance has its own concrete index class; the field
  viewId models the identity of that class object.
* The unbounded while-True loops of the skip index advance the wrapped
  integer position by one per entry, and past the end of a list-backed
  source the subscript raises; the length of the source therefore
  bounds the loop and serves as structural fuel.
* Generator loops (iteration) are given explicit fuel; none means the
  fuel bound was reached, and theorems always supply fuel exceeding the
  possible number of loop entries.
-/

namespace SeqView

/-- The free function succ on a native integer index: int has no
dunder succ method, so the AttributeError branch returns index + 1,
which always succeeds. -/
def succNative (i : Int) : Int := i + 1

/-- The free function pred on a native integer index: the AttributeError
branch raises ValueError when the index is falsy, i.e. exactly when the
integer equals 0; otherwise it returns index - 1.  none models the
ValueError. -/
def predNative (i : Int) : Option Int := if i = 0 then none else some (i - 1)

/-- Capability class of an input to smap or sfilter, as decided by the
two isinstance tests in the dispatch functions: randomAccess means an
instance of collections.abc.Sequence; bidirectional means a
BidirectionalSequence that is not a collections.abc.Sequence (for
example a MapBidirectionalView); iterator means neither. -/
inductive Cap
  | iterator
  | bidirectional
  | randomAccess
deriving DecidableEq

/-- Test isinstance(x, collections.abc.Sequence). -/
def isSequence : Cap → Bool
  | .randomAccess => true
  | _ => false

/-- Test isinstance(x, BidirectionalSequence): collections.abc.Sequence
is registered as a virtual subclass of BidirectionalSequence, so
random-access inputs pass this test as well. -/
def isBidirectionalSequence : Cap → Bool
  | .randomAccess => true
  | .bidirectional => true
  | .iterator => false

/-- The kind of object smap returns. -/
inductive SmapResult
  | mapView
  | mapBidirectionalView
  | plainMap
deriving DecidableEq

/-- Dispatch in smap: a MapView when every input is a
collections.abc.Sequence, else a MapBidirectionalView when every input
is a BidirectionalSequence, else the builtin map.  With zero inputs both
all-tests hold vacuously, so the first branch is taken. -/
def smapDispatch (caps : List Cap) : SmapResult :=
  if caps.all isSequence then .mapView
  else if caps.all isBidirectionalSequence then .mapBidirectionalView
  else .plainMap

/-- The kind of object sfilter returns. -/
inductive SfilterResult
  | filterView
  | plainFilter
deriving DecidableEq

/-- Dispatch in sfilter: a FilterBidirectionalView exactly when the
input is a collections.abc.Sequence; every other iterable, including a
bidirectional-only sequence, gets the builtin filter. -/
def sfilterDispatch (c : Cap) : SfilterResult :=
  if isSequence c then .filterView else .plainFilter

/-- Composite index of a MapBidirectionalView over list-backed sources:
the list of per-source integer positions (seqindices), tagged with the
identity of the nested Index class that created it (one fresh class per
view instance). -/
structure MapIndex where
  viewId : Nat
  seqindices : List Nat
deriving DecidableEq

/-- Skip index of a FilterBidirectionalView over a list-backed source:
the wrapped integer position, tagged with the identity of the nested
Index class of the view instance that created it. -/
structure FilterIndex where
  viewId : Nat
  seqindex : Nat
deriving DecidableEq

/-- Equality test of the map view index class: the concrete classes must
coincide and the seqindices lists must be elementwise equal. -/
def MapIndex.beq (x y : MapIndex) : Bool :=
  x.viewId == y.viewId && x.seqindices == y.seqindices

/-- Equality test of the filter view index class: the concrete classes
must coincide and the wrapped positions must be equal. -/
def FilterIndex.beq (x y : FilterIndex) : Bool :=
  x.viewId == y.viewId && x.seqindex == y.seqindex

/-- An index object as seen by a Python equality comparison. -/
inductive PyIndexObj
  | mapIdx (x : MapIndex)
  | filterIdx (x : FilterIndex)
deriving DecidableEq

/-- Python equality on two index objects.  Each concrete equality method
first compares the two concrete classes; for different concrete classes
the conjunction short-circuits to False.  No branch raises. -/
def pyIndexEq : PyIndexObj → PyIndexObj → Bool
  | .mapIdx x, .mapIdx y => MapIndex.beq x y
  | .filterIdx x, .filterIdx y => FilterIndex.beq x y
  | _, _ => false

/-- Forward step of the composite index: succ every component.
Component positions of list-backed sources are the naturals reached
from begin = 0, for which succ is plus one and never fails. -/
def MapIndex.succIdx (x : MapIndex) : MapIndex :=
  ⟨x.viewId, x.seqindices.map (· + 1)⟩

/-- The comprehension applying pred to every component, left to right:
pred raises ValueError at the first component equal to 0 (the
natural-number case of the free function pred). -/
def predComponents : List Nat → Option (List Nat)
  | [] => some []
  | k :: ks =>
    match (if k = 0 then none else some (k - 1) : Option Nat) with
    | none => none
    | some k2 => (predComponents ks).map (k2 :: ·)

/-- Backward step of the composite index: pred every component; a
ValueError from any component propagates. -/
def MapIndex.predIdx (x : MapIndex) : Option MapIndex :=
  (predComponents x.seqindices).map (⟨x.viewId, ·⟩)

/-- The begin index of a map view over list-backed sources with the
given lengths: a composite of the begin of each source, and the begin
of a random-access source is 0. -/
def mapViewBeginIdx (lens : List Nat) (v : Nat) : MapIndex :=
  ⟨v, lens.map fun _ => 0⟩

/-- The end index of a map view: a composite of the end of each source,
and the end of a random-access source is its length. -/
def mapViewEndIdx (lens : List Nat) (v : Nat) : MapIndex :=
  ⟨v, lens⟩

/-- Element access of MapBidirectionalView at a composite point index,
specialized to two sources: the function applied to the two source
elements; none models an IndexError escaping from a source subscript.
An index of this view always carries one component per source. -/
def mapViewGet (f : α → β → γ) (a : List α) (b : List β) (idx : MapIndex) :
    Option γ :=
  match idx.seqindices with
  | [i, j] =>
    match a[i]?, b[j]? with
    | some x, some y => some (f x y)
    | _, _ => none
  | _ => none

/-- Forward iteration of BidirectionalSequence at a two-source map view:
while the position differs from end, yield the element at the position
and step forward.  A none dereference (IndexError) ends the generator
normally.  The first argument of the loop is fuel; none means the fuel
bound was reached. -/
def mapIterFwd (f : α → β → γ) (a : List α) (b : List β)
    (endIdx : MapIndex) : Nat → MapIndex → Option (List γ)
  | 0, _ => none
  | fuel + 1, pos =>
    if MapIndex.beq pos endIdx then some []
    else
      match mapViewGet f a b pos with
      | none => some []
      | some z => (mapIterFwd f a b endIdx fuel pos.succIdx).map (z :: ·)

/-- Reverse iteration of BidirectionalSequence at a two-source map view:
while the position differs from begin, step backward and then yield.
There is no exception handler here: a ValueError from pred or an
IndexError from the dereference propagates (none). -/
def mapIterRev (f : α → β → γ) (a : List α) (b : List β)
    (beginIdx : MapIndex) : Nat → MapIndex → Option (List γ)
  | 0, _ => none
  | fuel + 1, pos =>
    if MapIndex.beq pos beginIdx then some []
    else
      match pos.predIdx with
      | none => none
      | some q =>
        match mapViewGet f a b q with
        | none => none
        | some z => (mapIterRev f a b beginIdx fuel q).map (z :: ·)

/-- Converting a two-source map view over list-backed sources to a list
by forward iteration from begin, as list() does.  The supplied fuel
exceeds the possible number of loop entries, which is at most one more
than the length of the shorter source. -/
def mapViewForwardList (f : α → β → γ) (a : List α) (b : List β)
    (v : Nat) : Option (List γ) :=
  mapIterFwd f a b (mapViewEndIdx [a.length, b.length] v)
    (min a.length b.length + 1) (mapViewBeginIdx [a.length, b.length] v)

/-- Converting the reverse iterator of a two-source map view over
list-backed sources to a list. -/
def mapViewReversedList (f : α → β → γ) (a : List α) (b : List β)
    (v : Nat) : Option (List γ) :=
  mapIterRev f a b (mapViewBeginIdx [a.length, b.length] v)
    (a.length + 1) (mapViewEndIdx [a.length, b.length] v)

/-- The Python iteration protocol applied to a composite index object:
the nested Index class defines only the succ, pred, eq and repr dunder
methods, neither an iteration method nor subscripting, so taking an
iterator of it raises TypeError (none). -/
def MapIndex.asIterable (_ : MapIndex) : Option (List Nat) := none

/-- The builtin min of a single argument: iterate it and fold with the
binary minimum; a TypeError from the iteration protocol and the
ValueError on an empty iterable are both none. -/
def pyMin (it : Option (List Nat)) : Option Nat :=
  it.bind fun l =>
    match l with
    | [] => none
    | x :: xs => some (xs.foldl Nat.min x)

/-- The length of a MapView: min applied to the cached end attribute,
which is the composite Index object itself, not its seqindices list. -/
def mapViewLen (a : List α) (b : List β) (v : Nat) : Option Nat :=
  pyMin (MapIndex.asIterable (mapViewEndIdx [a.length, b.length] v))

/-- The while-True loop of the forward step of the skip index:
repeatedly succ the wrapped position and test the predicate on the
source element there; over a list-backed source the loop can enter at
most length-many times before the subscript raises IndexError (none),
so that length serves as structural fuel. -/
def filterSuccAux (p : α → Bool) (s : List α) : Nat → Nat → Option Nat
  | 0, _ => none
  | fuel + 1, k =>
    match s[k + 1]? with
    | none => none
    | some x => if p x then some (k + 1) else filterSuccAux p s fuel (k + 1)

/-- Forward step of the skip index of FilterBidirectionalView on a
list-backed source. -/
def filterSucc (p : α → Bool) (s : List α) (k : Nat) : Option Nat :=
  filterSuccAux p s s.length k

/-- Backward step of the skip index: repeatedly pred the wrapped
position and test the predicate; pred of 0 raises ValueError and an
out-of-range subscript raises IndexError (both none). -/
def filterPred (p : α → Bool) (s : List α) : Nat → Option Nat
  | 0 => none
  | k + 1 =>
    match s[k]? with
    | none => none
    | some x => if p x then some k else filterPred p s k

/-- The end index of a filter view over a list-backed source: the skip
index wrapping the end of the source, which is its length. -/
def filterViewEndIdx (s : List α) (v : Nat) : FilterIndex :=
  ⟨v, s.length⟩

/-- Construction of FilterBidirectionalView on a list-backed source:
the begin index starts at the begin of the source, 0; if the element
there fails the predicate, it is eagerly stepped forward once by the
skip step.  none models an exception escaping the constructor: the
subscript at 0 raises IndexError on an empty source, and the eager skip
step raises IndexError when no later element matches.  The except
clause of the source catches only StopIteration, which a list subscript
never raises (and its body would itself fail, reading the end attribute
before that attribute is assigned). -/
def filterViewBeginIdx (p : α → Bool) (s : List α) (v : Nat) :
    Option FilterIndex :=
  match s[0]? with
  | none => none
  | some x =>
    if p x then some ⟨v, 0⟩
    else (filterSucc p s 0).map fun k => ⟨v, k⟩

/-- Forward iteration of BidirectionalSequence at a filter view: while
the position differs from end, yield the source element at the wrapped
position and skip-step forward; an IndexError from either operation
ends the generator normally with the elements yielded so far. -/
def filterIterFwd (p : α → Bool) (s : List α) (endIdx : FilterIndex) :
    Nat → FilterIndex → Option (List α)
  | 0, _ => none
  | fuel + 1, pos =>
    if FilterIndex.beq pos endIdx then some []
    else
      match s[pos.seqindex]? with
      | none => some []
      | some x =>
        match filterSucc p s pos.seqindex with
        | none => some [x]
        | some k =>
          (filterIterFwd p s endIdx fuel ⟨pos.viewId, k⟩).map (x :: ·)

/-- Reverse iteration of BidirectionalSequence at a filter view: while
the position differs from begin, skip-step backward and then yield; a
ValueError or IndexError propagates (none), there being no handler on
the reverse path. -/
def filterIterRev (p : α → Bool) (s : List α) (beginIdx : FilterIndex) :
    Nat → FilterIndex → Option (List α)
  | 0, _ => none
  | fuel + 1, pos =>
    if FilterIndex.beq pos beginIdx then some []
    else
      match filterPred p s pos.seqindex with
      | none => none
      | some k =>
        match s[k]? with
        | none => none
        | some x =>
          (filterIterRev p s beginIdx fuel ⟨pos.viewId, k⟩).map (x :: ·)

/-- Converting a filter view over a list-backed source to a list:
construction followed by forward iteration; an exception escaping the
constructor makes the whole expression raise (none). -/
def filterViewForwardList (p : α → Bool) (s : List α) (v : Nat) :
    Option (List α) :=
  (filterViewBeginIdx p s v).bind fun b =>
    filterIterFwd p s (filterViewEndIdx s v) (s.length + 1) b

/-- Converting the reverse iterator of a filter view over a list-backed
source to a list. -/
def filterViewReversedList (p : α → Bool) (s : List α) (v : Nat) :
    Option (List α) :=
  (filterViewBeginIdx p s v).bind fun b =>
    filterIterRev p s b (s.length + 1) (filterViewEndIdx s v)

namespace MapIndex

lemma beq_iff (x y : MapIndex) :
    MapIndex.beq x y = true ↔ x.viewId = y.viewId ∧ x.seqindices = y.seqindices := by
  simp [MapIndex.beq]

lemma beq_diag (v k la lb : Nat) :
    MapIndex.beq ⟨v, [k, k]⟩ ⟨v, [la, lb]⟩ = true ↔ k = la ∧ k = lb := by
  simp [MapIndex.beq]

end MapIndex

lemma mapViewGet_diag (f : α → β → γ) (a : List α) (b : List β) (v k : Nat) :
    mapViewGet f a b ⟨v, [k, k]⟩ =
      match a[k]?, b[k]? with
      | some x, some y => some (f x y)
      | _, _ => none := rfl

lemma mapIterFwd_diag (f : α → β → γ) (a : List α) (b : List β) (v : Nat) :
    ∀ fuel k, k ≤ min a.length b.length →
      min a.length b.length + 1 - k ≤ fuel →
      mapIterFwd f a b (mapViewEndIdx [a.length, b.length] v) fuel ⟨v, [k, k]⟩
        = some (List.zipWith f (a.drop k) (b.drop k)) := by
  intro fuel
  induction fuel with
  | zero => intro k hk hf; omega
  | succ fuel ih =>
    intro k hk hf
    rw [mapIterFwd]
    by_cases hka : k < a.length
    · by_cases hkb : k < b.length
      · have hbeq : MapIndex.beq ⟨v, [k, k]⟩
            (mapViewEndIdx [a.length, b.length] v) = false := by
          rw [Bool.eq_false_iff]
          intro h
          rcases (MapIndex.beq_diag v k a.length b.length).mp h with ⟨h1, _⟩
          omega
        rw [hbeq]
        have hx : a[k]? = some a[k] := List.getElem?_eq_getElem hka
        have hy : b[k]? = some b[k] := List.getElem?_eq_getElem hkb
        simp only [Bool.false_eq_true, if_false, mapViewGet_diag, hx, hy]
        have hsucc : MapIndex.succIdx ⟨v, [k, k]⟩ = ⟨v, [k + 1, k + 1]⟩ := by
          simp [MapIndex.succIdx]
        rw [hsucc, ih (k + 1) (by omega) (by omega)]
        rw [List.drop_eq_getElem_cons hka, List.drop_eq_getElem_cons hkb,
          List.zipWith_cons_cons]
        rfl
      · have hkb2 : b.length ≤ k := Nat.le_of_not_lt hkb
        have hbeq : MapIndex.beq ⟨v, [k, k]⟩
            (mapViewEndIdx [a.length, b.length] v) = false := by
          rw [Bool.eq_false_iff]
          intro h
          rcases (MapIndex.beq_diag v k a.length b.length).mp h with ⟨h1, _⟩
          omega
        rw [hbeq]
        have hy : b[k]? = none := List.getElem?_eq_none hkb2
        have hx : a[k]? = some a[k] := List.getElem?_eq_getElem hka
        simp only [Bool.false_eq_true, if_false, mapViewGet_diag, hx, hy]
        rw [List.drop_of_length_le hkb2, List.zipWith_nil_right]
    · have hka2 : a.length ≤ k := Nat.le_of_not_lt hka
      have hkeq : k = a.length := by omega
      by_cases hkb : k = b.length
      · have hbeq : MapIndex.beq ⟨v, [k, k]⟩
            (mapViewEndIdx [a.length, b.length] v) = true := by
          exact (MapIndex.beq_diag v k a.length b.length).mpr ⟨hkeq, hkb⟩
        rw [hbeq]
        rw [List.drop_of_length_le hka2, List.zipWith_nil_left]
        simp
      · have hbeq : MapIndex.beq ⟨v, [k, k]⟩
            (mapViewEndIdx [a.length, b.length] v) = false := by
          rw [Bool.eq_false_iff]
          intro h
          rcases (MapIndex.beq_diag v k a.length b.length).mp h with ⟨_, h2⟩
          exact hkb h2
        rw [hbeq]
        have hx : a[k]? = none := List.getElem?_eq_none hka2
        simp only [Bool.false_eq_true, if_false, mapViewGet_diag, hx]
        rw [List.drop_of_length_le hka2, List.zipWith_nil_left]

lemma mapIterRev_diag (f : α → β → γ) (a : List α) (b : List β) (v : Nat) :
    ∀ fuel k, k ≤ min a.length b.length → k < fuel →
      mapIterRev f a b (mapViewBeginIdx [a.length, b.length] v) fuel ⟨v, [k, k]⟩
        = some ((List.zipWith f (a.take k) (b.take k)).reverse) := by
  intro fuel
  induction fuel with
  | zero => intro k hk hf; omega
  | succ fuel ih =>
    intro k hk hf
    have hbegin : mapViewBeginIdx [a.length, b.length] v = ⟨v, [0, 0]⟩ := rfl
    simp only [hbegin] at ih
    rw [mapIterRev]
    match k, hk, hf with
    | 0, hk, hf =>
      rw [hbegin]
      simp [MapIndex.beq]
    | k + 1, hk, hf =>
      have hbeq : MapIndex.beq ⟨v, [k + 1, k + 1]⟩ ⟨v, [0, 0]⟩ = false := by
        rw [Bool.eq_false_iff]
        intro h
        rcases (MapIndex.beq_diag v (k + 1) 0 0).mp h with ⟨h1, _⟩
        omega
      rw [hbegin, hbeq]
      have hpred : MapIndex.predIdx ⟨v, [k + 1, k + 1]⟩ = some ⟨v, [k, k]⟩ := by
        simp [MapIndex.predIdx, predComponents]
      rw [hpred]
      have hka : k < a.length := by omega
      have hkb : k < b.length := by omega
      have hx : a[k]? = some a[k] := List.getElem?_eq_getElem hka
      have hy : b[k]? = some b[k] := List.getElem?_eq_getElem hkb
      simp only [Bool.false_eq_true, if_false, mapViewGet_diag, hx, hy]
      rw [ih k (by omega) (by omega)]
      have hta : a.take (k + 1) = a.take k ++ [a[k]] := by
        rw [List.take_succ, hx]; rfl
      have htb : b.take (k + 1) = b.take k ++ [b[k]] := by
        rw [List.take_succ, hy]; rfl
      have hlen : (a.take k).length = (b.take k).length := by
        simp [List.length_take]; omega
      rw [hta, htb, List.zipWith_append _ _ _ _ _ hlen]
      simp

/-- Claim C1: over random-access sources of equal length, forward
iteration of the map view yields the elementwise image in index order,
and reverse iteration yields exactly that list reversed. -/
theorem c1_map_forward_and_reverse (f : α → β → γ) (a : List α) (b : List β)
    (v : Nat) (h : a.length = b.length) :
    mapViewForwardList f a b v = some (List.zipWith f a b) ∧
    mapViewReversedList f a b v = some (List.zipWith f a b).reverse := by
  constructor
  · have := mapIterFwd_diag f a b v (min a.length b.length + 1) 0
      (by omega) (by omega)
    simpa [mapViewForwardList, mapViewBeginIdx] using this
  · have hk : a.length ≤ min a.length b.length := by omega
    have hrev := mapIterRev_diag f a b v (a.length + 1) a.length hk (by omega)
    rw [mapViewReversedList, mapViewEndIdx]
    have hidx : (⟨v, [a.length, b.length]⟩ : MapIndex)
        = ⟨v, [a.length, a.length]⟩ := by rw [h]
    rw [hidx, hrev, List.take_length, h, List.take_length]

/-- Witness for C1 at concrete input. -/
theorem c1_map_forward_and_reverse_witness :
    (([1, 2] : List Nat).length = ([10, 20] : List Nat).length) ∧
    (mapViewForwardList (fun x y => x + y) ([1, 2] : List Nat) [10, 20] 0
        = some (List.zipWith (fun x y => x + y) [1, 2] [10, 20]) ∧
      mapViewReversedList (fun x y => x + y) ([1, 2] : List Nat) [10, 20] 0
        = some (List.zipWith (fun x y => x + y) [1, 2] [10, 20]).reverse) :=
  ⟨rfl, c1_map_forward_and_reverse (fun x y => x + y) [1, 2] [10, 20] 0 rfl⟩

/-- Claim C5: forward iteration of the map view over two random-access
sources yields exactly min(len(a), len(b)) elements, the elementwise
image up to the shorter length, then terminates normally; concretely,
forward iteration of map(add, [0,1,2,3], [10]) yields [10]. -/
theorem c5_map_forward_shortest :
    (∀ (α β γ : Type) (f : α → β → γ) (a : List α) (b : List β) (v : Nat),
      mapViewForwardList f a b v = some (List.zipWith f a b) ∧
      (List.zipWith f a b).length = min a.length b.length) ∧
    mapViewForwardList (fun x y => x + y) ([0, 1, 2, 3] : List Nat) [10] 0
      = some [10] := by
  constructor
  · intro α β γ f a b v
    constructor
    · have := mapIterFwd_diag f a b v (min a.length b.length + 1) 0
        (by omega) (by omega)
      simpa [mapViewForwardList, mapViewBeginIdx] using this
    · exact List.length_zipWith ..
  · decide

lemma filterSuccAux_none (p : α → Bool) (s : List α) :
    ∀ fuel k, s.length ≤ fuel + k → filterSuccAux p s fuel k = none →
      ∀ j, k < j → ∀ y, s[j]? = some y → p y = false := by
  intro fuel
  induction fuel with
  | zero =>
    intro k hb _ j hj y hy
    rw [List.getElem?_eq_none (by omega)] at hy
    simp at hy
  | succ fuel ih =>
    intro k hb hnone j hj y hy
    rw [filterSuccAux] at hnone
    cases hx : s[k + 1]? with
    | none =>
      have hlen : s.length ≤ k + 1 := List.getElem?_eq_none_iff.mp hx
      rcases Nat.lt_or_ge j (k + 1) with hj2 | hj2
      · omega
      · rw [List.getElem?_eq_none (by omega)] at hy
        simp at hy
    | some x =>
      simp only [hx] at hnone
      by_cases hp : p x = true
      · rw [if_pos hp] at hnone
        simp at hnone
      · rw [if_neg hp] at hnone
        rcases Nat.lt_or_ge (k + 1) j with hj2 | hj2
        · exact ih (k + 1) (by omega) hnone j hj2 y hy
        · have hje : j = k + 1 := by omega
          subst hje
          rw [hx] at hy
          injection hy with hxy
          subst hxy
          exact Bool.eq_false_iff.mpr hp

lemma filterSuccAux_some (p : α → Bool) (s : List α) :
    ∀ fuel k k2, filterSuccAux p s fuel k = some k2 →
      k < k2 ∧ (∃ x, s[k2]? = some x ∧ p x = true) ∧
      ∀ j, k < j → j < k2 → ∀ y, s[j]? = some y → p y = false := by
  intro fuel
  induction fuel with
  | zero => intro k k2 h; simp [filterSuccAux] at h
  | succ fuel ih =>
    intro k k2 h
    rw [filterSuccAux] at h
    cases hx : s[k + 1]? with
    | none => simp [hx] at h
    | some x =>
      simp only [hx] at h
      by_cases hp : p x = true
      · rw [if_pos hp] at h
        injection h with hk2
        subst hk2
        refine ⟨by omega, ⟨x, hx, hp⟩, ?_⟩
        intro j hj1 hj2
        omega
      · rw [if_neg hp] at h
        rcases ih (k + 1) k2 h with ⟨h1, h2, h3⟩
        refine ⟨by omega, h2, ?_⟩
        intro j hj1 hj2 y hy
        rcases Nat.lt_or_ge (k + 1) j with hj3 | hj3
        · exact h3 j hj3 hj2 y hy
        · have hje : j = k + 1 := by omega
          subst hje
          rw [hx] at hy
          injection hy with hxy
          subst hxy
          exact Bool.eq_false_iff.mpr hp

lemma filterSucc_none (p : α → Bool) (s : List α) (k : Nat)
    (h : filterSucc p s k = none) :
    ∀ j, k < j → ∀ y, s[j]? = some y → p y = false :=
  filterSuccAux_none p s s.length k (by omega) h

lemma filterSucc_some (p : α → Bool) (s : List α) (k k2 : Nat)
    (h : filterSucc p s k = some k2) :
    k < k2 ∧ (∃ x, s[k2]? = some x ∧ p x = true) ∧
    ∀ j, k < j → j < k2 → ∀ y, s[j]? = some y → p y = false :=
  filterSuccAux_some p s s.length k k2 h

lemma filterPred_none (p : α → Bool) (s : List α) :
    ∀ k, k ≤ s.length → filterPred p s k = none →
      ∀ j, j < k → ∀ y, s[j]? = some y → p y = false := by
  intro k
  induction k with
  | zero => intro _ _ j hj; omega
  | succ k ih =>
    intro hk h j hj y hy
    rw [filterPred] at h
    cases hx : s[k]? with
    | none =>
      have : s.length ≤ k := List.getElem?_eq_none_iff.mp hx
      omega
    | some x =>
      simp only [hx] at h
      by_cases hp : p x = true
      · rw [if_pos hp] at h; simp at h
      · rw [if_neg hp] at h
        rcases Nat.lt_or_ge j k with hj2 | hj2
        · exact ih (by omega) h j hj2 y hy
        · have hje : j = k := by omega
          subst hje
          rw [hx] at hy
          injection hy with hxy
          subst hxy
          exact Bool.eq_false_iff.mpr hp

lemma filterPred_some (p : α → Bool) (s : List α) :
    ∀ k k2, filterPred p s k = some k2 →
      k2 < k ∧ (∃ x, s[k2]? = some x ∧ p x = true) ∧
      ∀ j, k2 < j → j < k → ∀ y, s[j]? = some y → p y = false := by
  intro k
  induction k with
  | zero => intro k2 h; simp [filterPred] at h
  | succ k ih =>
    intro k2 h
    rw [filterPred] at h
    cases hx : s[k]? with
    | none => simp [hx] at h
    | some x =>
      simp only [hx] at h
      by_cases hp : p x = true
      · rw [if_pos hp] at h
        injection h with hk2
        subst hk2
        refine ⟨by omega, ⟨x, hx, hp⟩, ?_⟩
        intro j hj1 hj2
        omega
      · rw [if_neg hp] at h
        rcases ih k2 h with ⟨h1, h2, h3⟩
        refine ⟨by omega, h2, ?_⟩
        intro j hj1 hj2 y hy
        rcases Nat.lt_or_ge j k with hj3 | hj3
        · exact h3 j hj1 hj3 y hy
        · have hje : j = k := by omega
          subst hje
          rw [hx] at hy
          injection hy with hxy
          subst hxy
          exact Bool.eq_false_iff.mpr hp

lemma drop_filter_congr (p : α → Bool) (s : List α) :
    ∀ n lo hi, hi - lo ≤ n → lo ≤ hi →
      (∀ j, lo ≤ j → j < hi → ∀ y, s[j]? = some y → p y = false) →
      (s.drop lo).filter p = (s.drop hi).filter p := by
  intro n
  induction n with
  | zero =>
    intro lo hi h1 h2 _
    have : lo = hi := by omega
    rw [this]
  | succ n ih =>
    intro lo hi h1 h2 hno
    by_cases heq : lo = hi
    · rw [heq]
    · have hlt : lo < hi := by omega
      cases hx : s[lo]? with
      | none =>
        have hlen : s.length ≤ lo := List.getElem?_eq_none_iff.mp hx
        rw [List.drop_of_length_le hlen, List.drop_of_length_le (by omega)]
      | some x =>
        rcases List.getElem?_eq_some_iff.mp hx with ⟨hlo, hval⟩
        rw [List.drop_eq_getElem_cons hlo, hval,
          List.filter_cons_of_neg (by
            have := hno lo (by omega) hlt x hx
            simp [this])]
        exact ih (lo + 1) hi (by omega) (by omega)
          (fun j hj1 hj2 y hy => hno j (by omega) hj2 y hy)

lemma take_filter_congr (p : α → Bool) (s : List α) :
    ∀ n lo hi, hi - lo ≤ n → lo ≤ hi →
      (∀ j, lo ≤ j → j < hi → ∀ y, s[j]? = some y → p y = false) →
      (s.take hi).filter p = (s.take lo).filter p := by
  intro n
  induction n with
  | zero =>
    intro lo hi h1 h2 _
    have : lo = hi := by omega
    rw [this]
  | succ n ih =>
    intro lo hi h1 h2 hno
    by_cases heq : lo = hi
    · rw [heq]
    · have hlt : lo < hi := by omega
      match hi, hlt with
      | hi2 + 1, hlt =>
        rw [List.take_succ]
        cases hx : s[hi2]? with
        | none =>
          simp only [Option.toList, List.append_nil]
          exact ih lo hi2 (by omega) (by omega)
            (fun j hj1 hj2 y hy => hno j hj1 (by omega) y hy)
        | some x =>
          have hpx : p x = false := hno hi2 (by omega) (by omega) x hx
          rw [List.filter_append]
          simp only [Option.toList]
          rw [List.filter_cons_of_neg (by simp [hpx]), List.filter_nil,
            List.append_nil]
          exact ih lo hi2 (by omega) (by omega)
            (fun j hj1 hj2 y hy => hno j hj1 (by omega) y hy)

lemma filterIndexBeq_iff (x y : FilterIndex) :
    FilterIndex.beq x y = true ↔ x.viewId = y.viewId ∧ x.seqindex = y.seqindex := by
  simp [FilterIndex.beq]

lemma filterIterFwd_run (p : α → Bool) (s : List α) (v : Nat) :
    ∀ fuel k, s.length - k ≤ fuel → k < s.length →
      (∃ x, s[k]? = some x ∧ p x = true) →
      filterIterFwd p s (filterViewEndIdx s v) fuel ⟨v, k⟩
        = some ((s.drop k).filter p) := by
  intro fuel
  induction fuel with
  | zero => intro k h1 h2 _; omega
  | succ fuel ih =>
    intro k h1 h2 hmatch
    rcases hmatch with ⟨x, hx, hpx⟩
    rcases List.getElem?_eq_some_iff.mp hx with ⟨hklt, hval⟩
    rw [filterIterFwd]
    have hbeq : FilterIndex.beq ⟨v, k⟩ (filterViewEndIdx s v) = false := by
      rw [Bool.eq_false_iff]
      intro hcontra
      rcases (filterIndexBeq_iff ⟨v, k⟩ (filterViewEndIdx s v)).mp hcontra
        with ⟨_, h2eq⟩
      simp [filterViewEndIdx] at h2eq
      omega
    rw [hbeq]
    simp only [Bool.false_eq_true, if_false, hx]
    cases hsucc : filterSucc p s k with
    | none =>
      have hno := filterSucc_none p s k hsucc
      rw [List.drop_eq_getElem_cons hklt, hval,
        List.filter_cons_of_pos (by simp [hpx])]
      have hrest : (s.drop (k + 1)).filter p = [] := by
        have := drop_filter_congr p s s.length (k + 1) s.length (by omega)
          (by omega) (fun j hj1 hj2 y hy => hno j (by omega) y hy)
        simpa using this
      rw [hrest]
    | some k2 =>
      rcases filterSucc_some p s k k2 hsucc with ⟨hkk2, ⟨x2, hx2, hpx2⟩, hbet⟩
      have hk2lt : k2 < s.length := (List.getElem?_eq_some_iff.mp hx2).1
      show (filterIterFwd p s (filterViewEndIdx s v) fuel ⟨v, k2⟩).map (x :: ·)
        = some ((s.drop k).filter p)
      rw [ih k2 (by omega) hk2lt ⟨x2, hx2, hpx2⟩]
      rw [List.drop_eq_getElem_cons hklt, hval,
        List.filter_cons_of_pos (by simp [hpx])]
      have hmid : (s.drop (k + 1)).filter p = (s.drop k2).filter p :=
        drop_filter_congr p s s.length (k + 1) k2 (by omega) (by omega)
          (fun j hj1 hj2 y hy => hbet j (by omega) hj2 y hy)
      rw [hmid]
      rfl

lemma filterIterRev_run (p : α → Bool) (s : List α) (v : Nat) :
    ∀ fuel k k0, k < fuel → k0 ≤ k → k ≤ s.length →
      (∃ x0, s[k0]? = some x0 ∧ p x0 = true) →
      (∀ j, j < k0 → ∀ y, s[j]? = some y → p y = false) →
      filterIterRev p s ⟨v, k0⟩ fuel ⟨v, k⟩
        = some ((s.take k).filter p).reverse := by
  intro fuel
  induction fuel with
  | zero => intro k k0 h1 _ _ _ _; omega
  | succ fuel ih =>
    intro k k0 h1 h2 h3 hmatch hno
    rcases hmatch with ⟨x0, hx0, hpx0⟩
    rw [filterIterRev]
    by_cases hk : k = k0
    · subst hk
      have hbeq : FilterIndex.beq ⟨v, k⟩ ⟨v, k⟩ = true := by
        simp [FilterIndex.beq]
      rw [hbeq]
      have htake : (s.take k).filter p = [] := by
        have := take_filter_congr p s k 0 k (by omega) (by omega)
          (fun j hj1 hj2 y hy => hno j hj2 y hy)
        simpa using this
      rw [htake]
      rfl
    · have hbeq : FilterIndex.beq ⟨v, k⟩ ⟨v, k0⟩ = false := by
        rw [Bool.eq_false_iff]
        intro hcontra
        rcases (filterIndexBeq_iff ⟨v, k⟩ ⟨v, k0⟩).mp hcontra with ⟨_, h2eq⟩
        exact hk h2eq
      rw [hbeq]
      simp only [Bool.false_eq_true, if_false]
      have hk0k : k0 < k := by omega
      cases hpred : filterPred p s k with
      | none =>
        have := filterPred_none p s k h3 hpred k0 hk0k x0 hx0
        rw [this] at hpx0
        cases hpx0
      | some k2 =>
        rcases filterPred_some p s k k2 hpred with ⟨hk2k, ⟨x2, hx2, hpx2⟩, hbet⟩
        have hk0k2 : k0 ≤ k2 := by
          by_contra hcon
          have hk2k0 : k2 < k0 := by omega
          have := hbet k0 (by omega) (by omega) x0 hx0
          rw [this] at hpx0
          cases hpx0
        show (match s[k2]? with
            | none => none
            | some x => (filterIterRev p s ⟨v, k0⟩ fuel ⟨v, k2⟩).map (x :: ·))
          = some ((s.take k).filter p).reverse
        rw [hx2]
        show (filterIterRev p s ⟨v, k0⟩ fuel ⟨v, k2⟩).map (x2 :: ·)
          = some ((s.take k).filter p).reverse
        rw [ih k2 k0 (by omega) hk0k2 (by omega) ⟨x0, hx0, hpx0⟩ hno]
        have htk : (s.take k).filter p = (s.take (k2 + 1)).filter p :=
          take_filter_congr p s k (k2 + 1) k (by omega) (by omega)
            (fun j hj1 hj2 y hy => hbet j (by omega) hj2 y hy)
        rw [htk, List.take_succ, hx2, List.filter_append]
        simp only [Option.toList]
        rw [List.filter_cons_of_pos (by simp [hpx2]), List.filter_nil]
        simp

lemma filterViewBeginIdx_spec (p : α → Bool) (s : List α) (v : Nat)
    (hne : s.filter p ≠ []) :
    ∃ k0 x0, filterViewBeginIdx p s v = some ⟨v, k0⟩ ∧ s[k0]? = some x0 ∧
      p x0 = true ∧ k0 < s.length ∧
      ∀ j, j < k0 → ∀ y, s[j]? = some y → p y = false := by
  have hex : ∃ a, a ∈ s ∧ p a = true := by
    cases hf : s.filter p with
    | nil => exact absurd hf hne
    | cons a t =>
      have ha : a ∈ s.filter p := by rw [hf]; exact List.mem_cons_self a t
      rcases List.mem_filter.mp ha with ⟨ha1, ha2⟩
      exact ⟨a, ha1, ha2⟩
  rcases hex with ⟨a, hmem, hpa⟩
  rcases List.mem_iff_getElem?.mp hmem with ⟨m, hm⟩
  cases h0 : s[0]? with
  | none =>
    have hlen : s.length ≤ 0 := List.getElem?_eq_none_iff.mp h0
    rw [List.getElem?_eq_none (by omega)] at hm
    simp at hm
  | some x =>
    by_cases hp0 : p x = true
    · refine ⟨0, x, ?_, h0, hp0, (List.getElem?_eq_some_iff.mp h0).1, ?_⟩
      · simp [filterViewBeginIdx, h0, hp0]
      · intro j hj
        omega
    · cases hsucc : filterSucc p s 0 with
      | none =>
        exfalso
        have hnom := filterSucc_none p s 0 hsucc
        rcases Nat.eq_zero_or_pos m with hm0 | hmpos
        · subst hm0
          rw [h0] at hm
          injection hm with hax
          subst hax
          exact hp0 hpa
        · have := hnom m (by omega) a hm
          rw [this] at hpa
          cases hpa
      | some k0 =>
        rcases filterSucc_some p s 0 k0 hsucc with ⟨hk0pos, ⟨x0, hx0, hpx0⟩, hbet⟩
        refine ⟨k0, x0, ?_, hx0, hpx0, (List.getElem?_eq_some_iff.mp hx0).1, ?_⟩
        · simp [filterViewBeginIdx, h0, hp0, hsucc]
        · intro j hj y hy
          rcases Nat.eq_zero_or_pos j with hj0 | hjpos
          · subst hj0
            rw [h0] at hy
            injection hy with hyx
            subst hyx
            exact Bool.eq_false_iff.mpr hp0
          · exact hbet j (by omega) hj y hy

/-- Claim C2 amended: provided at least one element of the source
satisfies the predicate, forward iteration of the filter view yields
exactly the elements of the source satisfying the predicate in their
original relative order, and reverse iteration yields exactly the
reverse of that list.  (When no element satisfies the predicate,
construction itself raises; see the C3 result.) -/
theorem c2_filter_forward_and_reverse (p : α → Bool) (s : List α) (v : Nat)
    (h : s.filter p ≠ []) :
    filterViewForwardList p s v = some (s.filter p) ∧
    filterViewReversedList p s v = some (s.filter p).reverse := by
  rcases filterViewBeginIdx_spec p s v h with ⟨k0, x0, hbegin, hx0, hpx0, hk0, hno⟩
  have htake0 : (s.take k0).filter p = [] := by
    have := take_filter_congr p s k0 0 k0 (by omega) (by omega)
      (fun j hj1 hj2 y hy => hno j hj2 y hy)
    simpa using this
  constructor
  · rw [filterViewForwardList, hbegin, Option.some_bind]
    rw [filterIterFwd_run p s v (s.length + 1) k0 (by omega) hk0 ⟨x0, hx0, hpx0⟩]
    congr 1
    conv_rhs => rw [← List.take_append_drop k0 s]
    rw [List.filter_append, htake0, List.nil_append]
  · rw [filterViewReversedList, hbegin, Option.some_bind]
    rw [filterViewEndIdx,
      filterIterRev_run p s v (s.length + 1) s.length k0 (by omega) (by omega)
        (by omega) ⟨x0, hx0, hpx0⟩ hno]
    rw [List.take_length]

/-- Witness for the amended C2 at concrete input. -/
theorem c2_filter_forward_and_reverse_witness :
    (([0, 1, 2, 3] : List Nat).filter (fun x => x % 2 == 1) ≠ []) ∧
    (filterViewForwardList (fun x => x % 2 == 1) ([0, 1, 2, 3] : List Nat) 0
        = some (([0, 1, 2, 3] : List Nat).filter (fun x => x % 2 == 1)) ∧
      filterViewReversedList (fun x => x % 2 == 1) ([0, 1, 2, 3] : List Nat) 0
        = some ((([0, 1, 2, 3] : List Nat).filter (fun x => x % 2 == 1)).reverse)) :=
  ⟨by decide,
    c2_filter_forward_and_reverse (fun x => x % 2 == 1) [0, 1, 2, 3] 0 (by decide)⟩

/-- Counterexample to C2 as stated: over the source [0, 2] with the
odd predicate no element matches, and the whole expression
list(sfilter(p, s)) raises instead of producing the empty list the
claim requires for every sequence and predicate. -/
theorem c2_counterexample_no_match :
    filterViewForwardList (fun x => x % 2 == 1) ([0, 2] : List Nat) 0 = none ∧
    ([0, 2] : List Nat).filter (fun x => x % 2 == 1) = [] := by decide

/-- Claim C3, code side: constructing the filter view over a source
none of whose elements satisfies the predicate raises IndexError out of
the constructor (the eager begin scan runs past the end of the source;
the except clause catches only StopIteration), instead of succeeding
with begin equal to end as the claim states.  Evaluated at the failing
inputs: a one-element source with an always-false predicate, and also
an empty source. -/
theorem c3_filter_construction_raises :
    filterViewBeginIdx (fun _ : Nat => false) [0] 0 = none ∧
    filterViewBeginIdx (fun _ : Nat => false) [] 0 = none ∧
    filterViewForwardList (fun _ : Nat => false) [0] 0 = none := by decide

/-- Claim C4, code side: the length operation of the upgraded MapView
raises TypeError for every view, because it computes the builtin min of
the cached end attribute, which is the composite Index object itself
and is not iterable; had the seqindices list of that index been passed
to min instead, the result would have been the minimum of the source
lengths that the claim describes.  The first conjunct evaluates the
code at the failing input len(smap(add, [0,1,2,3], [10])). -/
theorem c4_len_raises_typeerror :
    (mapViewLen ([0, 1, 2, 3] : List Nat) ([10] : List Nat) 0 = none) ∧
    (∀ (a : List Nat) (b : List Nat) (v : Nat),
      mapViewLen a b v = none ∧
      pyMin (some (mapViewEndIdx [a.length, b.length] v).seqindices)
        = some (Nat.min a.length b.length)) :=
  ⟨rfl, fun _ _ _ => ⟨rfl, rfl⟩⟩

/-- Counterexample to C6 as stated: for a bidirectional-only input (a
BidirectionalSequence that is not a collections.abc.Sequence, such as a
MapBidirectionalView over bidirectional-only sources), sfilter does not
construct a FilterView. -/
theorem c6_counterexample_bidirectional_input :
    sfilterDispatch Cap.bidirectional ≠ SfilterResult.filterView := by decide

/-- Claim C6 amended: sfilter constructs a FilterView exactly for
random-access inputs, the instances of collections.abc.Sequence; every
other input, including a bidirectional-only sequence, gets the plain
forward-only lazy filter. -/
theorem c6_sfilter_dispatch_amended (c : Cap) :
    sfilterDispatch c = SfilterResult.filterView ↔ c = Cap.randomAccess := by
  cases c <;> simp [sfilterDispatch, isSequence]

/-- Counterexample to C7 as stated: comparing a map view index with a
filter view index, two different concrete index kinds, returns the
not-equal result False; no InvalidComparison error is raised. -/
theorem c7_counterexample_cross_kind_eq :
    pyIndexEq (.mapIdx ⟨0, [0, 0]⟩) (.filterIdx ⟨1, 0⟩) = false := rfl

/-- Claim C7 amended: comparing two indices of different concrete kinds
silently returns the not-equal result False, in both argument orders;
the comparison is total and signals nothing (each concrete equality
method compares the classes first and short-circuits to False). -/
theorem c7_cross_kind_eq_amended (x : MapIndex) (y : FilterIndex) :
    pyIndexEq (.mapIdx x) (.filterIdx y) = false ∧
    pyIndexEq (.filterIdx y) (.mapIdx x) = false :=
  ⟨rfl, rfl⟩

/-- Claim C8: on a native integer index, the free function succ always
succeeds and returns the successor, and the free function pred fails
with the underflow ValueError exactly when the index is 0, otherwise
returning the predecessor. -/
theorem c8_native_succ_pred (i : Int) :
    succNative i = i + 1 ∧ (predNative i = none ↔ i = 0) ∧
    (i ≠ 0 → predNative i = some (i - 1)) := by
  refine ⟨rfl, ⟨?_, ?_⟩, ?_⟩
  · intro h
    by_contra hne
    rw [predNative, if_neg hne] at h
    simp at h
  · intro h
    rw [predNative, if_pos h]
  · intro h
    rw [predNative, if_neg h]

/-- Witness for C8 at concrete input. -/
theorem c8_native_succ_pred_witness :
    ((5 : Int) ≠ 0) ∧ predNative 5 = some 4 :=
  ⟨by decide, by
    have h := (c8_native_succ_pred 5).2.2 (by decide)
    simpa using h⟩

/-- Counterexample to C9 as stated: smap applied to a function and zero
iterables returns a MapView — the all-inputs-random-access test holds
vacuously — rather than signalling InvalidArgument (the dispatch is
total and has no error outcome at all). -/
theorem c9_counterexample_zero_inputs :
    smapDispatch [] = SmapResult.mapView := rfl

/-- Claim C9 amended: smap with zero input sequences signals no error;
it returns a MapView whose begin and end composite indices are both the
empty composite, so they compare equal and the view is empty. -/
theorem c9_zero_inputs_amended :
    smapDispatch [] = SmapResult.mapView ∧
    ∀ v : Nat, pyIndexEq (.mapIdx (mapViewBeginIdx [] v))
      (.mapIdx (mapViewEndIdx [] v)) = true := by
  refine ⟨rfl, fun v => ?_⟩
  show MapIndex.beq ⟨v, []⟩ ⟨v, []⟩ = true
  simp [MapIndex.beq]

lemma filterViewBeginIdx_viewId (p : α → Bool) (s : List α) (v w m : Nat)
    (h : filterViewBeginIdx p s v = some ⟨w, m⟩) : w = v := by
  rw [filterViewBeginIdx] at h
  cases h0 : s[0]? with
  | none => simp [h0] at h
  | some x =>
    simp only [h0] at h
    by_cases hp : p x = true
    · rw [if_pos hp] at h
      simp only [Option.some.injEq, FilterIndex.mk.injEq] at h
      exact h.1.symm
    · rw [if_neg hp] at h
      cases hsucc : filterSucc p s 0 with
      | none => simp [hsucc] at h
      | some k =>
        rw [hsucc] at h
        simp only [Option.map_some', Option.some.injEq,
          FilterIndex.mk.injEq] at h
        exact h.1.symm

/-- Claim C10: index equality is per view instance — every view
construction creates a fresh concrete Index class, and the equality
method compares the classes first, so an index of one view never
compares equal to an index of a separately constructed view, even over
identical sources, functions and predicates at the same logical
position.  Stated for the begin indices of two map views over the same
source lengths and for the begin indices of two filter views over the
same predicate and source. -/
theorem c10_index_eq_per_view_instance
    (lens : List Nat) (p : Nat → Bool) (s : List Nat) (v w : Nat)
    (hvw : v ≠ w) :
    pyIndexEq (.mapIdx (mapViewBeginIdx lens v))
      (.mapIdx (mapViewBeginIdx lens w)) = false ∧
    ∀ ix iy, filterViewBeginIdx p s v = some ix →
      filterViewBeginIdx p s w = some iy →
      pyIndexEq (.filterIdx ix) (.filterIdx iy) = false := by
  constructor
  · have hbe : (v == w) = false := beq_eq_false_iff_ne.mpr hvw
    show MapIndex.beq (mapViewBeginIdx lens v) (mapViewBeginIdx lens w) = false
    simp [MapIndex.beq, mapViewBeginIdx, hbe]
  · intro ix iy hx hy
    cases ix with
    | mk xw xm =>
      cases iy with
      | mk yw ym =>
        have h1 : xw = v := filterViewBeginIdx_viewId p s v xw xm hx
        have h2 : yw = w := filterViewBeginIdx_viewId p s w yw ym hy
        have hbe : (xw == yw) = false := beq_eq_false_iff_ne.mpr (by omega)
        show FilterIndex.beq ⟨xw, xm⟩ ⟨yw, ym⟩ = false
        simp [FilterIndex.beq, hbe]

/-- Witness for C10 at concrete input. -/
theorem c10_index_eq_per_view_instance_witness :
    ((0 : Nat) ≠ 1) ∧
    (pyIndexEq (.mapIdx (mapViewBeginIdx [2, 2] 0))
        (.mapIdx (mapViewBeginIdx [2, 2] 1)) = false ∧
      ∀ ix iy, filterViewBeginIdx (fun x => x % 2 == 0) ([0, 1] : List Nat) 0
          = some ix →
        filterViewBeginIdx (fun x => x % 2 == 0) ([0, 1] : List Nat) 1
          = some iy →
        pyIndexEq (.filterIdx ix) (.filterIdx iy) = false) :=
  ⟨by decide,
    c10_index_eq_per_view_instance [2, 2] (fun x => x % 2 == 0) [0, 1] 0 1
      (by decide)⟩

end SeqView
